import Mathlib

/-!
Verification of the chatPDF web application (src/app.py) against its
natural-language specification.  The Python source is shallowly embedded:
pure fragments become Lean functions, the filesystem becomes an explicit
list of stored keys, and the external OpenAI completion call becomes an
oracle parameter together with an outcome type.
-/

namespace ChatPDF

/-! ## String utilities shared by the embedding

Python `str.lower()` restricted to ASCII is core's `Char.toLower`
(both map `A`..`Z` to `a`..`z` and fix everything else that appears in
the strings this program compares). -/

/-- Embeds Python `s.lower()` (ASCII range). -/
def pyLower (s : String) : String := String.mk (s.data.map Char.toLower)

/-- Embeds Python `pat in hay` on strings. -/
def containsSub (hay pat : String) : Prop := pat.data <:+: hay.data

instance (hay pat : String) : Decidable (containsSub hay pat) :=
  List.decidableInfix pat.data hay.data

/-- Returns the suffix of `l` strictly after the last
occurrence of `c`, or `none` when `c` does not occur: the list-level
embedding of Python `l.rsplit(c, 1)[1]` guarded by `c in l`. -/
def extAfter (c : Char) : List Char → Option (List Char)
  | [] => none
  | x :: xs =>
    match extAfter c xs with
    | some r => some r
    | none => if x = c then some xs else none

/-- Embeds `allowed_file` from src/app.py on the character list:
`'.' in filename and filename.rsplit('.', 1)[1].lower() in {'pdf'}`. -/
def allowed_file_list (l : List Char) : Bool :=
  match extAfter '.' l with
  | none => false
  | some ext => ext.map Char.toLower == ['p', 'd', 'f']

/-- Embeds `allowed_file(filename)` from src/app.py. -/
def allowed_file (s : String) : Bool := allowed_file_list s.data

/-- Spec-side reading of "has the extension `.pdf` (case-insensitively)":
the lower-cased name ends in `".pdf"`. -/
def hasPdfExt (s : String) : Prop := ['.', 'p', 'd', 'f'] <:+ s.data.map Char.toLower

instance (s : String) : Decidable (hasPdfExt s) := by
  unfold hasPdfExt; infer_instance

/-! ### `allowed_file` agrees with the case-insensitive `.pdf` suffix test -/

theorem extAfter_eq_none_iff (c : Char) (l : List Char) :
    extAfter c l = none ↔ c ∉ l := by
  induction l with
  | nil => simp [extAfter]
  | cons x xs ih =>
    show (match extAfter c xs with
          | some r => some r
          | none => if x = c then some xs else none) = none ↔ c ∉ x :: xs
    cases h : extAfter c xs with
    | some r =>
      have hc : c ∈ xs := by
        by_contra hcc
        rw [← ih] at hcc
        rw [hcc] at h
        cases h
      simp [List.mem_cons, hc]
    | none =>
      have hns : c ∉ xs := ih.mp h
      by_cases hx : x = c
      · subst hx
        simp
      · rw [if_neg hx]
        simp only [List.mem_cons]
        constructor
        · intro _ hor
          rcases hor with rfl | hm
          · exact hx rfl
          · exact hns hm
        · intro _
          trivial

theorem toLower_dot_iff (c : Char) : c.toLower = '.' ↔ c = '.' := by
  constructor
  · intro h
    simp only [Char.toLower] at h
    by_cases hr : c.toNat ≥ 65 ∧ c.toNat ≤ 90
    · exfalso
      rw [if_pos hr] at h
      have hvalid : (c.toNat + 32).isValidChar := Or.inl (by omega)
      have hv : (Char.ofNat (c.toNat + 32)).toNat = c.toNat + 32 := by
        rw [Char.ofNat, dif_pos hvalid]
        rfl
      have h46 : ('.' : Char).toNat = c.toNat + 32 := by rw [← h, hv]
      have hd : ('.' : Char).toNat = 46 := rfl
      omega
    · rw [if_neg hr] at h
      exact h
  · intro h
    subst h
    decide

theorem dot_mem_map_toLower_iff (l : List Char) :
    '.' ∈ l.map Char.toLower ↔ '.' ∈ l := by
  simp only [List.mem_map]
  constructor
  · rintro ⟨c, hc, hlow⟩
    rwa [(toLower_dot_iff c).mp hlow] at hc
  · intro h
    exact ⟨'.', h, (toLower_dot_iff '.').mpr rfl⟩

theorem allowed_file_list_cons (x : Char) (xs : List Char) :
    allowed_file_list (x :: xs) =
      match extAfter '.' xs with
      | some _ => allowed_file_list xs
      | none => if x = '.' then (xs.map Char.toLower == ['p', 'd', 'f']) else false := by
  cases h : extAfter '.' xs with
  | some r => simp [allowed_file_list, extAfter, h]
  | none =>
    by_cases hx : x = '.' <;> simp [allowed_file_list, extAfter, h, hx]

theorem allowed_file_list_iff_pdf_suffix (l : List Char) :
    allowed_file_list l = true ↔ ['.', 'p', 'd', 'f'] <:+ l.map Char.toLower := by
  induction l with
  | nil => simp [allowed_file_list, extAfter, List.suffix_nil]
  | cons x xs ih =>
    rw [allowed_file_list_cons, List.map_cons, List.suffix_cons_iff]
    cases h : extAfter '.' xs with
    | some r =>
      have hdot : '.' ∈ xs := by
        by_contra hcc
        rw [← extAfter_eq_none_iff '.' xs] at hcc
        rw [hcc] at h
        cases h
      dsimp only
      rw [ih]
      constructor
      · intro hs
        exact Or.inr hs
      · rintro (heq | hs)
        · exfalso
          have htl : ['p', 'd', 'f'] = List.map Char.toLower xs := by
            have := congrArg List.tail heq
            simpa using this
          have hdm : '.' ∈ List.map Char.toLower xs :=
            (dot_mem_map_toLower_iff xs).mpr hdot
          rw [← htl] at hdm
          simp at hdm
        · exact hs
    | none =>
      have hnd : '.' ∉ xs := (extAfter_eq_none_iff '.' xs).mp h
      have hndm : '.' ∉ List.map Char.toLower xs := fun hm =>
        hnd ((dot_mem_map_toLower_iff xs).mp hm)
      by_cases hx : x = '.'
      · subst hx
        dsimp only
        rw [if_pos rfl]
        constructor
        · intro hb
          left
          have hm : List.map Char.toLower xs = ['p', 'd', 'f'] := by simpa using hb
          have hdl : ('.' : Char).toLower = '.' := by decide
          rw [hm, hdl]
        · rintro (heq | hs)
          · have := congrArg List.tail heq
            simp at this
            simp [← this]
          · exact absurd (hs.mem (by simp)) hndm
      · dsimp only
        rw [if_neg hx]
        simp only [Bool.false_eq_true, false_iff]
        rintro (heq | hs)
        · have hhead : '.' = x.toLower := by
            have := congrArg (fun t => List.headD t ' ') heq
            simpa using this
          exact hx ((toLower_dot_iff x).mp hhead.symm)
        · exact hndm (hs.mem (by simp))

theorem allowed_file_iff (s : String) :
    allowed_file s = true ↔ hasPdfExt s :=
  allowed_file_list_iff_pdf_suffix s.data

/-! ## Display names (src/app.py, `index` / `view_pdf`)

The code derives a display name from a stored key by
`'_'.join(filename.split('_')[1:])` when
`'_' in filename and len(filename.split('_')[0]) == 36`. -/

/-- Embeds Python `l.split(c)` on character lists. -/
def pySplit (c : Char) : List Char → List (List Char)
  | [] => [[]]
  | x :: xs =>
    match pySplit c xs with
    | [] => [[]]
    | h :: t => if x = c then [] :: h :: t else (x :: h) :: t

/-- Embeds Python `c.join(parts)` on character lists. -/
def pyJoin (c : Char) : List (List Char) → List Char
  | [] => []
  | [x] => x
  | x :: y :: t => x ++ c :: pyJoin c (y :: t)

/-- Embeds the display-name computation of src/app.py on character lists:
strip everything up to the first `'_'` when the part before it has
exactly 36 characters. -/
def display_name_list (l : List Char) : List Char :=
  if l.contains '_' && ((pySplit '_' l).headD []).length == 36 then
    pyJoin '_' ((pySplit '_' l).drop 1)
  else
    l

/-- Embeds the display-name computation of src/app.py on strings. -/
def display_name (s : String) : String := String.mk (display_name_list s.data)

theorem pySplit_ne_nil (c : Char) (l : List Char) : pySplit c l ≠ [] := by
  cases l with
  | nil => simp [pySplit]
  | cons x xs =>
    show (match pySplit c xs with
          | [] => [[]]
          | h :: t => if x = c then [] :: h :: t else (x :: h) :: t) ≠ []
    cases h : pySplit c xs with
    | nil => simp
    | cons hd tl =>
      by_cases hx : x = c <;> simp [hx]

theorem pyJoin_pySplit (c : Char) (l : List Char) :
    pyJoin c (pySplit c l) = l := by
  induction l with
  | nil => rfl
  | cons x xs ih =>
    show pyJoin c (match pySplit c xs with
          | [] => [[]]
          | h :: t => if x = c then [] :: h :: t else (x :: h) :: t) = x :: xs
    cases h : pySplit c xs with
    | nil => exact absurd h (pySplit_ne_nil c xs)
    | cons hd tl =>
      dsimp only
      rw [h] at ih
      by_cases hx : x = c
      · subst hx
        rw [if_pos rfl]
        show [] ++ x :: pyJoin x (hd :: tl) = x :: xs
        rw [List.nil_append, ih]
      · rw [if_neg hx]
        cases tl with
        | nil =>
          show x :: hd = x :: xs
          simp only [pyJoin] at ih
          rw [ih]
        | cons t1 ts =>
          exact congrArg (fun t => x :: t) ih

theorem pySplit_headD (c : Char) (l : List Char) :
    (pySplit c l).headD [] = l.takeWhile (fun d => d ≠ c) := by
  induction l with
  | nil => rfl
  | cons x xs ih =>
    show (match pySplit c xs with
          | [] => [[]]
          | h :: t => if x = c then [] :: h :: t else (x :: h) :: t).headD []
        = List.takeWhile (fun d => d ≠ c) (x :: xs)
    cases h : pySplit c xs with
    | nil => exact absurd h (pySplit_ne_nil c xs)
    | cons hd tl =>
      dsimp only
      rw [h] at ih
      by_cases hx : x = c
      · subst hx
        rw [if_pos rfl]
        simp [List.takeWhile_cons]
      · rw [if_neg hx]
        simp only [List.headD_cons] at ih ⊢
        simp [List.takeWhile_cons, hx, ih]

theorem pyJoin_pySplit_drop_one (c : Char) (l : List Char) (hc : c ∈ l) :
    pyJoin c ((pySplit c l).drop 1) = (l.dropWhile (fun d => d ≠ c)).tail := by
  induction l with
  | nil => cases hc
  | cons x xs ih =>
    show pyJoin c ((match pySplit c xs with
          | [] => [[]]
          | h :: t => if x = c then [] :: h :: t else (x :: h) :: t).drop 1)
        = (List.dropWhile (fun d => d ≠ c) (x :: xs)).tail
    cases h : pySplit c xs with
    | nil => exact absurd h (pySplit_ne_nil c xs)
    | cons hd tl =>
      dsimp only
      by_cases hx : x = c
      · subst hx
        rw [if_pos rfl]
        simp only [List.drop_succ_cons, List.drop_zero, List.dropWhile_cons]
        have hjoin : pyJoin x (hd :: tl) = xs := by
          have := pyJoin_pySplit x xs
          rw [h] at this
          exact this
        simp [hjoin]
      · have hcs : c ∈ xs := by
          rcases List.mem_cons.mp hc with rfl | hm
          · exact absurd rfl hx
          · exact hm
        rw [if_neg hx]
        simp only [List.drop_succ_cons, List.drop_zero]
        rw [h] at ih
        simp only [List.drop_succ_cons, List.drop_zero] at ih
        rw [ih hcs]
        simp [List.dropWhile_cons, hx]

/-- The display-name rule, stated the way the spec describes it: when the
segment before the first underscore has exactly 36 characters, the display
name is the remainder after that first underscore; otherwise it is the key
itself. -/
theorem display_name_list_spec (l : List Char) :
    display_name_list l =
      if l.contains '_' = true ∧ (l.takeWhile (fun d => d ≠ '_')).length = 36 then
        (l.dropWhile (fun d => d ≠ '_')).tail
      else
        l := by
  unfold display_name_list
  rw [pySplit_headD]
  have hiff : (l.contains '_' && ((l.takeWhile (fun d => d ≠ '_')).length == 36)) = true ↔
      (l.contains '_' = true ∧ (l.takeWhile (fun d => d ≠ '_')).length = 36) := by
    simp
  by_cases hcond : l.contains '_' = true ∧ (l.takeWhile (fun d => d ≠ '_')).length = 36
  · have hcm : '_' ∈ l := by
      simpa [List.contains] using hcond.1
    rw [if_pos (hiff.mpr hcond), if_pos hcond, pyJoin_pySplit_drop_one '_' l hcm]
  · rw [if_neg (fun hb => hcond (hiff.mp hb)), if_neg hcond]

/-! ## Upload handler (src/app.py, `upload_file`)

The store is the list of keys present in the `uploads` directory.  The
werkzeug `secure_filename` sanitizer and the fresh `uuid.uuid4()` value
are parameters, and `file.save` is modelled by its outcome: `none` for
success, `some e` for a raised exception with message `e`. -/

inductive UploadResult
  | redirectWithFlash (msg : String)
  | redirectToView (key : String)
  deriving DecidableEq

/-- Embeds the `upload_file` route of src/app.py.  `fileField` is `none`
when `'file' not in request.files`, and `some fn` when a file with
filename `fn` was posted. -/
def upload_file (sanitize : String → String) (u : String)
    (saveResult : Option String) (store : List String)
    (fileField : Option String) : UploadResult × List String :=
  match fileField with
  | none => (.redirectWithFlash "No file selected", store)
  | some fn =>
    if fn = "" then
      (.redirectWithFlash "No file selected", store)
    else if allowed_file fn then
      let key := u ++ "_" ++ sanitize fn
      match saveResult with
      | none => (.redirectToView key, store ++ [key])
      | some e => (.redirectWithFlash ("Error uploading file: " ++ e), store)
    else
      (.redirectWithFlash "Invalid file type. Please upload a PDF file.", store)

/-! ## Filesystem paths for `view_pdf` and `serve_pdf`

Flask routes `/view/<filename>` and `/pdf/<filename>` match only
slash-free path components.  `os.path.exists` consults the real tree, so
the model resolves `.` and `..` segments; the modelled disk holds the
working directory, the `uploads` directory inside it, and the files of
`store` inside that. -/

/-- Resolve a path, given as segments relative to the working directory:
`.` is skipped and `..` pops one segment. -/
def resolve (segs : List String) : List String :=
  segs.foldl
    (fun acc s => if s = "." then acc else if s = ".." then acc.dropLast else acc ++ [s])
    []

/-- Embeds `os.path.exists` on the modelled tree. -/
def fsExists (store : List String) (segs : List String) : Bool :=
  match resolve segs with
  | [] => true
  | [d] => d == "uploads"
  | [d, k] => d == "uploads" && store.contains k
  | _ => false

/-- Embeds `os.path.isfile` on the modelled tree: exactly the stored
keys under `uploads` are files. -/
def isFileAt (store : List String) (segs : List String) : Bool :=
  match resolve segs with
  | [d, k] => d == "uploads" && store.contains k
  | _ => false

/-- A well-formed stored key: a plain directory entry, not a traversal
token and without a separator. -/
def plainSeg (s : String) : Bool :=
  s != "" && s != "." && s != ".." && !(s.data.contains '/')

inductive ViewResult
  | notFoundRedirect
  | viewerPage (filename display : String)
  deriving DecidableEq

/-- Embeds the `view_pdf` route of src/app.py: an existence check on
`os.path.join(UPLOAD_FOLDER, filename)` followed by rendering the viewer
with the raw key and its display name. -/
def view_pdf (store : List String) (filename : String) : ViewResult :=
  if fsExists store ["uploads", filename] then
    .viewerPage filename (display_name filename)
  else
    .notFoundRedirect

inductive ServeResult
  | ok (path : List String)
  | notFound
  | serverError
  deriving DecidableEq

/-- Models the safe join performed by werkzeug's `send_from_directory`
for a slash-free component: the only slash-free component it rejects is
`".."` (a rejection surfaces as a `NotFound` exception). -/
def safe_join_flask (directory filename : String) : Option (List String) :=
  if filename = ".." then none else some [directory, filename]

/-- Embeds the `serve_pdf` route of src/app.py: the handler's own
existence check, then `send_from_directory`, whose raised `NotFound` is
caught by the route's `except Exception` and turned into a 500 reply. -/
def serve_pdf (store : List String) (filename : String) : ServeResult :=
  if fsExists store ["uploads", filename] then
    match safe_join_flask "uploads" filename with
    | none => .serverError
    | some segs => if isFileAt store segs then .ok segs else .serverError
  else
    .notFound

/-! ## Chat proxy (src/app.py, `chat` route)

The external OpenAI completion call is an oracle `callApi` together with
an outcome: `success content` when the call returns, `failure errMsg`
when anything inside the inner `try` raises (with `errMsg = str(e)`).
The credential is `apiKey`, with `none` when the variable is unset and
`some ""` when it is set but empty — both falsy in Python. -/

structure ChatMsg where
  role : String
  content : String
  deriving DecidableEq

structure ChatContext where
  filename : String
  currentPage : Nat
  totalPages : Nat
  selectedText : String
  deriving DecidableEq

/-- Embeds the `system_prompt` f-string of the `chat` route. -/
def system_prompt (ctx : ChatContext) : String :=
  "You are a helpful PDF assistant. You're helping the user understand a PDF document.\n\nCurrent PDF Context:\n- Filename: "
    ++ ctx.filename
    ++ "\n- Current Page: "
    ++ toString ctx.currentPage
    ++ " of "
    ++ toString ctx.totalPages
    ++ "\n- Selected Text: "
    ++ ctx.selectedText
    ++ "\n\nYou can help with:\n- Explaining content and concepts\n- Summarizing sections or pages\n- Answering questions about the document\n- Discussing selected text\n- Providing context and analysis\n\nBe concise, helpful, and focus on the PDF content. If the user asks about specific pages or sections, acknowledge the current page context."

/-- Embeds the message-list assembly of the `chat` route: system prompt,
then `history[-10:] if len(history) > 10 else history`, then the user
message. -/
def chatMessages (message : String) (history : List ChatMsg)
    (ctx : ChatContext) : List ChatMsg :=
  let recent := if history.length > 10 then history.drop (history.length - 10) else history
  [ChatMsg.mk "system" (system_prompt ctx)] ++ recent ++ [ChatMsg.mk "user" message]

inductive ApiOutcome
  | success (content : String)
  | failure (errMsg : String)
  deriving DecidableEq

/-- Embeds the fallback canned-response block of the `chat` route (the
final `else` of the error classifier). -/
def fallback_response (message : String) (ctx : ChatContext) : String :=
  if ctx.selectedText ≠ "" then
    "I can see you've selected: \"" ++ ctx.selectedText.take 200
      ++ (if ctx.selectedText.length > 200 then "..." else "")
      ++ "\"\n\nWhat would you like me to explain about this selection? (Note: AI chat temporarily unavailable)"
  else if containsSub (pyLower message) "summary" then
    "I'd be happy to provide a summary of page " ++ toString ctx.currentPage
      ++ " of this document. What specific section interests you? (Note: AI chat temporarily unavailable)"
  else if containsSub (pyLower message) "explain" then
    "I can help explain concepts from this PDF. Could you point me to the specific section or concept you'd like me to clarify? (Note: AI chat temporarily unavailable)"
  else
    "I'm here to help you understand this PDF document. Currently viewing page "
      ++ toString ctx.currentPage ++ " of " ++ toString ctx.totalPages
      ++ ". What would you like to know? (Note: AI chat temporarily unavailable)"

/-- Embeds the error classifier of the `chat` route, applied to
`str(openai_error).lower()`. -/
def classify_error (errMsg message : String) (ctx : ChatContext) : String :=
  let e := pyLower errMsg
  if containsSub e "authentication" ∨ containsSub e "api key" then
    "🔑 Invalid OpenAI API key. Please check your OPENAI_API_KEY in the .env file."
  else if containsSub e "rate limit" ∨ containsSub e "quota" then
    "⏱️ OpenAI API rate limit exceeded. Please try again in a moment."
  else if containsSub e "connection" ∨ containsSub e "network" then
    "🌐 Network connection issue. Please check your internet connection and try again."
  else
    fallback_response message ctx

/-- The fixed credentials-missing reply of the `chat` route. -/
def missing_key_warning : String :=
  "⚠️ OpenAI API key not found. Please set OPENAI_API_KEY in your .env file to enable AI chat."

/-- Embeds the body of the `chat` route's inner `try`: the reply string
plus a flag recording whether the external API was invoked. -/
def chat (message : String) (history : List ChatMsg) (ctx : ChatContext)
    (apiKey : Option String) (callApi : List ChatMsg → ApiOutcome) :
    String × Bool :=
  let messages := chatMessages message history ctx
  if apiKey.getD "" = "" then
    (missing_key_warning, false)
  else
    match callApi messages with
    | .success content => (content.trim, true)
    | .failure err => (classify_error err message ctx, true)

inductive ChatHttp
  | ok (response : String)
  | serverError (error : String)
  deriving DecidableEq

/-- Embeds the whole `chat` route: the outer `try` would produce
`serverError` only for a failure outside the inner handler, which the
embedded request data cannot produce. -/
def chat_route (message : String) (history : List ChatMsg) (ctx : ChatContext)
    (apiKey : Option String) (callApi : List ChatMsg → ApiOutcome) : ChatHttp :=
  ChatHttp.ok (chat message history ctx apiKey callApi).1

/-- Embeds the `pdfContext` object built by the client's `sendMessage`:
its `filename` field is the raw template value `{{ filename }}`, i.e. the
stored key. -/
def clientContext (storedKey : String) (currentPage totalPages : Nat)
    (selectedText : String) : ChatContext :=
  { filename := storedKey
    currentPage := currentPage
    totalPages := totalPages
    selectedText := selectedText }

/-! ## Viewer zoom (src/app.py, client-side `zoomIn`/`zoomOut`/`resetZoom`)

`let scale = 1.2;` with `scale *= 1.25; if (scale > 3) scale = 3;`,
`scale *= 0.8; if (scale < 0.5) scale = 0.5;` and `scale = 1.2;`.
Scalars are modelled as exact rationals. -/

def initialScale : ℚ := 1.2

def zoomIn (s : ℚ) : ℚ :=
  let s' := s * 1.25
  if s' > 3 then 3 else s'

def zoomOut (s : ℚ) : ℚ :=
  let s' := s * 0.8
  if s' < 0.5 then 0.5 else s'

def resetZoom (_ : ℚ) : ℚ := 1.2

inductive ZoomOp
  | zin
  | zout
  | reset
  deriving DecidableEq

def applyZoom (s : ℚ) : ZoomOp → ℚ
  | .zin => zoomIn s
  | .zout => zoomOut s
  | .reset => resetZoom s

/-- The scale reached from the initial 1.2 after a sequence of zoom
operations. -/
def runZoom (ops : List ZoomOp) : ℚ :=
  ops.foldl applyZoom initialScale

/-! ## Supporting lemmas -/

theorem string_mk_data (s : String) : String.mk s.data = s := rfl

theorem takeWhile_append_stop {p : Char → Bool} :
    ∀ (l₁ : List Char), (∀ x ∈ l₁, p x = true) → ∀ (y : Char), p y = false →
      ∀ (l₂ : List Char),
        (l₁ ++ y :: l₂).takeWhile p = l₁ ∧ (l₁ ++ y :: l₂).dropWhile p = y :: l₂ := by
  intro l₁
  induction l₁ with
  | nil =>
    intro _ y hy l₂
    simp [List.takeWhile_cons, List.dropWhile_cons, hy]
  | cons x xs ih =>
    intro hall y hy l₂
    have hx : p x = true := hall x (by simp)
    have hxs : ∀ z ∈ xs, p z = true := fun z hz => hall z (by simp [hz])
    obtain ⟨ht, hd⟩ := ih hxs y hy l₂
    constructor
    · simp [List.takeWhile_cons, hx, ht]
    · simp [List.dropWhile_cons, hx, hd]

theorem display_name_concat (u s : String) (hlen : u.data.length = 36)
    (hnou : '_' ∉ u.data) : display_name (u ++ "_" ++ s) = s := by
  unfold display_name
  have hdata : (u ++ "_" ++ s).data = u.data ++ '_' :: s.data := by
    rw [String.data_append, String.data_append]
    simp
  rw [hdata, display_name_list_spec]
  have hall : ∀ x ∈ u.data, (fun d => decide (d ≠ '_')) x = true := by
    intro x hx
    simp only [decide_eq_true_eq, ne_eq]
    intro hx'
    exact hnou (hx' ▸ hx)
  have hy : (fun d => decide (d ≠ '_')) '_' = false := by simp
  obtain ⟨ht, hd⟩ := takeWhile_append_stop u.data hall '_' hy s.data
  have hcont : (u.data ++ '_' :: s.data).contains '_' = true := by
    simp [List.contains]
  rw [if_pos ⟨hcont, by rw [ht]; exact hlen⟩, hd]
  exact string_mk_data s

/-! ## Claim theorems -/

/-- Claim C1: when no OPENAI_API_KEY credential is configured (the
environment variable is unset or empty, both falsy in Python), the chat
handler replies with the fixed credentials-missing warning string and
performs no outbound call to the completion API. -/
theorem chat_missing_key (message : String) (history : List ChatMsg)
    (ctx : ChatContext) (apiKey : Option String)
    (callApi : List ChatMsg → ApiOutcome) (hkey : apiKey.getD "" = "") :
    chat message history ctx apiKey callApi = (missing_key_warning, false) := by
  unfold chat
  rw [if_pos hkey]

theorem chat_missing_key_witness :
    (Option.getD (none : Option String) "" = "")
      ∧ chat "hello" [] (clientContext "a.pdf" 1 3 "") none
          (fun _ => ApiOutcome.failure "boom") = (missing_key_warning, false) :=
  ⟨rfl, chat_missing_key "hello" [] (clientContext "a.pdf" 1 3 "") none
    (fun _ => ApiOutcome.failure "boom") rfl⟩

/-- Claim C2: the message list forwarded to the completion API is the
system instruction, then exactly the last `min n 10` history entries in
their original order, then the current user message. -/
theorem chat_history_truncation (message : String) (history : List ChatMsg)
    (ctx : ChatContext) :
    chatMessages message history ctx
        = ChatMsg.mk "system" (system_prompt ctx)
            :: (history.drop (history.length - 10) ++ [ChatMsg.mk "user" message])
      ∧ (history.drop (history.length - 10)).length = min history.length 10 := by
  constructor
  · unfold chatMessages
    by_cases h : history.length > 10
    · rw [if_pos h]
      rfl
    · rw [if_neg h]
      have h0 : history.length - 10 = 0 := by omega
      rw [h0, List.drop_zero]
      rfl
  · rw [List.length_drop]
    omega

/-- Claim C4: for every input and every outcome of the external
completion call, the chat route resolves to a displayable reply string —
never an unhandled fault. -/
theorem chat_route_never_faults (message : String) (history : List ChatMsg)
    (ctx : ChatContext) (apiKey : Option String)
    (callApi : List ChatMsg → ApiOutcome) :
    ∃ reply : String,
      chat_route message history ctx apiKey callApi = ChatHttp.ok reply :=
  ⟨(chat message history ctx apiKey callApi).1, rfl⟩

/-- Claim C5: an upload whose filename does not have the `.pdf`
extension (case-insensitively) is rejected with a user-facing flash
message and the store is unchanged. -/
theorem upload_rejects_non_pdf (sanitize : String → String) (u : String)
    (saveResult : Option String) (store : List String) (fn : String)
    (hext : ¬ hasPdfExt fn) :
    (upload_file sanitize u saveResult store (some fn)).2 = store
      ∧ ∃ msg, (upload_file sanitize u saveResult store (some fn)).1
          = UploadResult.redirectWithFlash msg := by
  have hall : ¬ allowed_file fn = true := fun hb => hext ((allowed_file_iff fn).mp hb)
  unfold upload_file
  dsimp only
  by_cases hfn : fn = ""
  · rw [if_pos hfn]
    exact ⟨rfl, "No file selected", rfl⟩
  · rw [if_neg hfn, if_neg hall]
    exact ⟨rfl, "Invalid file type. Please upload a PDF file.", rfl⟩

theorem upload_rejects_non_pdf_witness :
    (¬ hasPdfExt "notes.txt")
      ∧ (upload_file id "u0" none ["k.pdf"] (some "notes.txt")).2 = ["k.pdf"]
      ∧ ∃ msg, (upload_file id "u0" none ["k.pdf"] (some "notes.txt")).1
          = UploadResult.redirectWithFlash msg := by
  refine ⟨by decide, ?_, ?_⟩
  · exact (upload_rejects_non_pdf id "u0" none ["k.pdf"] "notes.txt" (by decide)).1
  · exact (upload_rejects_non_pdf id "u0" none ["k.pdf"] "notes.txt" (by decide)).2

/-- Claim C7: a key whose segment before the first underscore has
exactly 36 characters displays as the remainder after that underscore
(later underscores preserved); any other key displays as itself; the
sample uuid-prefixed key displays as "report.pdf". -/
theorem display_name_strip_rule :
    (∀ l : List Char,
        display_name_list l =
          if l.contains '_' = true ∧ (l.takeWhile (fun d => d ≠ '_')).length = 36 then
            (l.dropWhile (fun d => d ≠ '_')).tail
          else l)
      ∧ display_name "550e8400-e29b-41d4-a716-446655440000_report.pdf" = "report.pdf" :=
  ⟨display_name_list_spec, by decide⟩

/-- Claim C8: starting from the initial scale 1.2, every finite sequence
of zoom operations keeps the scale within [0.5, 3.0], and reset always
restores exactly 1.2. -/
theorem zoom_scale_clamped :
    (∀ ops : List ZoomOp, 0.5 ≤ runZoom ops ∧ runZoom ops ≤ 3)
      ∧ (∀ s : ℚ, resetZoom s = 1.2) := by
  have hstep : ∀ (s : ℚ) (op : ZoomOp), 0.5 ≤ s → s ≤ 3 →
      0.5 ≤ applyZoom s op ∧ applyZoom s op ≤ 3 := by
    intro s op h1 h2
    cases op with
    | zin =>
      simp only [applyZoom, zoomIn]
      by_cases h : s * 1.25 > 3
      · rw [if_pos h]
        norm_num
      · rw [if_neg h]
        push_neg at h
        constructor
        · nlinarith
        · exact h
    | zout =>
      simp only [applyZoom, zoomOut]
      by_cases h : s * 0.8 < 0.5
      · rw [if_pos h]
        norm_num
      · rw [if_neg h]
        push_neg at h
        constructor
        · exact h
        · nlinarith
    | reset =>
      simp only [applyZoom, resetZoom]
      norm_num
  have haux : ∀ (ops : List ZoomOp) (s : ℚ), 0.5 ≤ s → s ≤ 3 →
      0.5 ≤ ops.foldl applyZoom s ∧ ops.foldl applyZoom s ≤ 3 := by
    intro ops
    induction ops with
    | nil =>
      intro s h1 h2
      simpa using ⟨h1, h2⟩
    | cons op rest ih =>
      intro s h1 h2
      rw [List.foldl_cons]
      obtain ⟨g1, g2⟩ := hstep s op h1 h2
      exact ih (applyZoom s op) g1 g2
  constructor
  · intro ops
    exact haux ops initialScale (by norm_num [initialScale]) (by norm_num [initialScale])
  · intro s
    rfl

/-- Claim C10 (supporting definition): the canonical textual form of
`uuid.uuid4()` — 36 characters over lowercase hex digits and hyphens,
hence underscore-free. -/
def isUuid4Repr (u : String) : Bool :=
  u.data.length == 36 && u.data.all (fun c => "0123456789abcdef-".data.contains c)

/-- Claim C10: a successful upload stores the key
`{uuid4}_{sanitize(originalName)}`, and the display-name stripping rule
applied to that key returns exactly the sanitized original filename. -/
theorem stored_key_display_roundtrip (sanitize : String → String)
    (u fn key : String) (store store' : List String)
    (hu : isUuid4Repr u = true)
    (hsucc : upload_file sanitize u none store (some fn)
        = (UploadResult.redirectToView key, store')) :
    key = u ++ "_" ++ sanitize fn ∧ display_name key = sanitize fn := by
  have hkey : key = u ++ "_" ++ sanitize fn := by
    unfold upload_file at hsucc
    dsimp only at hsucc
    by_cases hfn : fn = ""
    · rw [if_pos hfn] at hsucc
      cases hsucc
    · rw [if_neg hfn] at hsucc
      by_cases hall : allowed_file fn = true
      · rw [if_pos hall] at hsucc
        have := congrArg Prod.fst hsucc
        simp only at this
        cases this
        rfl
      · rw [if_neg hall] at hsucc
        cases hsucc
  refine ⟨hkey, ?_⟩
  have hb := (Bool.and_eq_true _ _).mp hu
  have hlen : u.data.length = 36 := by
    have := hb.1
    simpa using this
  have hnou : '_' ∉ u.data := by
    intro hmem
    have := (List.all_eq_true).mp hb.2 '_' hmem
    simp [List.contains] at this
  rw [hkey]
  exact display_name_concat u (sanitize fn) hlen hnou

theorem stored_key_display_roundtrip_witness :
    (isUuid4Repr "550e8400-e29b-41d4-a716-446655440000" = true)
      ∧ "550e8400-e29b-41d4-a716-446655440000_report.pdf"
          = "550e8400-e29b-41d4-a716-446655440000" ++ "_" ++ id "report.pdf"
      ∧ display_name "550e8400-e29b-41d4-a716-446655440000_report.pdf"
          = id "report.pdf" := by
  refine ⟨by decide, ?_, ?_⟩
  · exact (stored_key_display_roundtrip id "550e8400-e29b-41d4-a716-446655440000"
      "report.pdf" "550e8400-e29b-41d4-a716-446655440000_report.pdf" []
      ["550e8400-e29b-41d4-a716-446655440000_report.pdf"] (by decide) (by decide)).1
  · exact (stored_key_display_roundtrip id "550e8400-e29b-41d4-a716-446655440000"
      "report.pdf" "550e8400-e29b-41d4-a716-446655440000_report.pdf" []
      ["550e8400-e29b-41d4-a716-446655440000_report.pdf"] (by decide) (by decide)).2

/-- An external-call failure the classifier leaves unclassified: its
lowered text mentions none of the classification keywords. -/
def unclassifiedErr (errMsg : String) : Prop :=
  ¬ containsSub (pyLower errMsg) "authentication"
    ∧ ¬ containsSub (pyLower errMsg) "api key"
    ∧ ¬ containsSub (pyLower errMsg) "rate limit"
    ∧ ¬ containsSub (pyLower errMsg) "quota"
    ∧ ¬ containsSub (pyLower errMsg) "connection"
    ∧ ¬ containsSub (pyLower errMsg) "network"

instance (e : String) : Decidable (unclassifiedErr e) := by
  unfold unclassifiedErr
  infer_instance

theorem chat_failure_reply (message err : String) (history : List ChatMsg)
    (ctx : ChatContext) (apiKey : String) (hkey : apiKey ≠ "") :
    (chat message history ctx (some apiKey) (fun _ => ApiOutcome.failure err)).1
      = classify_error err message ctx := by
  unfold chat
  rw [if_neg (by simpa using hkey)]

theorem classify_error_unclassified (err message : String) (ctx : ChatContext)
    (herr : unclassifiedErr err) :
    classify_error err message ctx = fallback_response message ctx := by
  obtain ⟨h1, h2, h3, h4, h5, h6⟩ := herr
  unfold classify_error
  rw [if_neg (by rintro (h | h) <;> [exact h1 h; exact h2 h]),
    if_neg (by rintro (h | h) <;> [exact h3 h; exact h4 h]),
    if_neg (by rintro (h | h) <;> [exact h5 h; exact h6 h])]

/-- Claim C3: on an unclassified failure of the external completion
call, the reply is chosen deterministically by the canned-response
rules: a quote of the first 200 characters of the selection with an
ellipsis marker exactly when the selection exceeds 200 characters; else
the page-scoped summary prompt when the message contains "summary"; else
the section-pointer request when it contains "explain"; else the generic
help message referencing the current and total pages. -/
theorem chat_fallback_rules (message err : String) (history : List ChatMsg)
    (ctx : ChatContext) (apiKey : String) (hkey : apiKey ≠ "")
    (herr : unclassifiedErr err) :
    (ctx.selectedText ≠ "" →
        ∃ quoteOpen quoteClose,
          (chat message history ctx (some apiKey) (fun _ => ApiOutcome.failure err)).1
            = quoteOpen ++ ctx.selectedText.take 200
              ++ (if ctx.selectedText.length > 200 then "..." else "") ++ quoteClose)
      ∧ (ctx.selectedText = "" → containsSub (pyLower message) "summary" →
          (chat message history ctx (some apiKey) (fun _ => ApiOutcome.failure err)).1
            = "I'd be happy to provide a summary of page " ++ toString ctx.currentPage
              ++ " of this document. What specific section interests you? (Note: AI chat temporarily unavailable)")
      ∧ (ctx.selectedText = "" → ¬ containsSub (pyLower message) "summary" →
          containsSub (pyLower message) "explain" →
          (chat message history ctx (some apiKey) (fun _ => ApiOutcome.failure err)).1
            = "I can help explain concepts from this PDF. Could you point me to the specific section or concept you'd like me to clarify? (Note: AI chat temporarily unavailable)")
      ∧ (ctx.selectedText = "" → ¬ containsSub (pyLower message) "summary" →
          ¬ containsSub (pyLower message) "explain" →
          (chat message history ctx (some apiKey) (fun _ => ApiOutcome.failure err)).1
            = "I'm here to help you understand this PDF document. Currently viewing page "
              ++ toString ctx.currentPage ++ " of " ++ toString ctx.totalPages
              ++ ". What would you like to know? (Note: AI chat temporarily unavailable)") := by
  have hroute : (chat message history ctx (some apiKey) (fun _ => ApiOutcome.failure err)).1
      = fallback_response message ctx := by
    rw [chat_failure_reply message err history ctx apiKey hkey,
      classify_error_unclassified err message ctx herr]
  refine ⟨?_, ?_, ?_, ?_⟩
  · intro hsel
    rw [hroute]
    unfold fallback_response
    rw [if_pos hsel]
    exact ⟨"I can see you've selected: \"",
      "\"\n\nWhat would you like me to explain about this selection? (Note: AI chat temporarily unavailable)",
      rfl⟩
  · intro hsel hsum
    rw [hroute]
    unfold fallback_response
    rw [if_neg (fun hne => hne hsel), if_pos hsum]
  · intro hsel hsum hexp
    rw [hroute]
    unfold fallback_response
    rw [if_neg (fun hne => hne hsel), if_neg hsum, if_pos hexp]
  · intro hsel hsum hexp
    rw [hroute]
    unfold fallback_response
    rw [if_neg (fun hne => hne hsel), if_neg hsum, if_neg hexp]

theorem chat_fallback_rules_witness :
    ("sk-test" ≠ "") ∧ unclassifiedErr "boom"
      ∧ ((String.mk (List.replicate 250 'x') : String) ≠ "")
      ∧ ∃ quoteOpen quoteClose,
          (chat "hi" [] (clientContext "k.pdf" 2 9 (String.mk (List.replicate 250 'x')))
              (some "sk-test") (fun _ => ApiOutcome.failure "boom")).1
            = quoteOpen ++ (String.mk (List.replicate 250 'x')).take 200
              ++ (if (String.mk (List.replicate 250 'x')).length > 200 then "..." else "")
              ++ quoteClose := by
  refine ⟨by decide, by decide, by decide, ?_⟩
  exact (chat_fallback_rules "hi" "boom" []
    (clientContext "k.pdf" 2 9 (String.mk (List.replicate 250 'x')))
    "sk-test" (by decide) (by decide)).1 (by decide)

/-- Claim C6 counterexample: the traversal key ".." is not rejected by
the view handler: the joined path `uploads/..` resolves to the working
directory — outside the upload root — the existence check succeeds, and
the viewer page is rendered; no InvalidKeyError exists anywhere. -/
theorem view_pdf_traversal_not_rejected :
    view_pdf [] ".." = ViewResult.viewerPage ".." ".."
      ∧ resolve ["uploads", ".."] = [] := by
  constructor
  · rfl
  · rfl

/-- Claim C6 (amended): route keys are slash-free path components; the
PDF-serving handler turns the one remaining traversal key ".." into an
error reply, and every path it ever serves is `uploads/<k>` for a stored
key `k`, already in normal form — it never serves a path outside the
upload root.  The view handler, by contrast, only checks existence of
the joined path and rejects nothing (see the counterexample). -/
theorem serve_pdf_confined :
    (∀ (store : List String) (segs : List String),
        serve_pdf store ".." ≠ ServeResult.ok segs)
      ∧ (∀ (store : List String) (filename : String) (segs : List String),
          serve_pdf store filename = ServeResult.ok segs →
            ∃ k, store.contains k = true ∧ segs = ["uploads", k]
              ∧ resolve segs = segs) := by
  constructor
  · intro store segs h
    rw [show serve_pdf store ".." = ServeResult.serverError from rfl] at h
    cases h
  · intro store filename segs hok
    unfold serve_pdf at hok
    by_cases hex : fsExists store ["uploads", filename] = true
    · rw [if_pos hex] at hok
      unfold safe_join_flask at hok
      by_cases hdd : filename = ".."
      · rw [if_pos hdd] at hok
        cases hok
      · rw [if_neg hdd] at hok
        dsimp only at hok
        by_cases hfile : isFileAt store ["uploads", filename] = true
        · rw [if_pos hfile] at hok
          have hsegs : segs = ["uploads", filename] := by
            cases hok
            rfl
          by_cases hd1 : filename = "."
          · exfalso
            unfold isFileAt resolve at hfile
            rw [hd1] at hfile
            simp at hfile
          · have hres : resolve ["uploads", filename] = ["uploads", filename] := by
              unfold resolve
              simp [hd1, hdd]
            unfold isFileAt at hfile
            rw [hres] at hfile
            have hcont : store.contains filename = true := by simpa using hfile
            exact ⟨filename, hcont, hsegs, by rw [hsegs, hres]⟩
        · rw [if_neg hfile] at hok
          cases hok
    · rw [if_neg hex] at hok
      cases hok

theorem serve_pdf_confined_witness :
    (serve_pdf ["a.pdf"] "a.pdf" = ServeResult.ok ["uploads", "a.pdf"])
      ∧ ∃ k, (["a.pdf"] : List String).contains k = true
          ∧ (["uploads", "a.pdf"] : List String) = ["uploads", k]
          ∧ resolve ["uploads", "a.pdf"] = ["uploads", "a.pdf"] :=
  ⟨by decide, serve_pdf_confined.2 ["a.pdf"] "a.pdf" ["uploads", "a.pdf"] (by decide)⟩

set_option maxRecDepth 8000

/-- Claim C9 counterexample: for the sample stored key, the system
instruction assembled from the client-sent context embeds the raw stored
key — the uuid prefix is not stripped — and differs from the instruction
the claim describes, which would embed the display name. -/
theorem system_prompt_uses_raw_key :
    containsSub
        (system_prompt (clientContext
          "550e8400-e29b-41d4-a716-446655440000_report.pdf" 1 2 ""))
        "- Filename: 550e8400-e29b-41d4-a716-446655440000_report.pdf"
      ∧ system_prompt (clientContext
            "550e8400-e29b-41d4-a716-446655440000_report.pdf" 1 2 "")
          ≠ system_prompt (clientContext
            (display_name "550e8400-e29b-41d4-a716-446655440000_report.pdf") 1 2 "") := by
  constructor
  · decide
  · decide

/-- Claim C9 (amended): the system instruction embeds the filename
exactly as the client's `sendMessage` supplies it — the raw stored key,
uuid prefix included — together with the current page, total pages, and
selected text of the request context. -/
theorem system_prompt_embeds_context (storedKey : String)
    (currentPage totalPages : Nat) (selectedText : String) :
    ∃ s1 s2 s3 s4 s5,
      system_prompt (clientContext storedKey currentPage totalPages selectedText)
        = s1 ++ storedKey ++ s2 ++ toString currentPage ++ s3
            ++ toString totalPages ++ s4 ++ selectedText ++ s5 :=
  ⟨"You are a helpful PDF assistant. You're helping the user understand a PDF document.\n\nCurrent PDF Context:\n- Filename: ",
    "\n- Current Page: ", " of ", "\n- Selected Text: ",
    "\n\nYou can help with:\n- Explaining content and concepts\n- Summarizing sections or pages\n- Answering questions about the document\n- Discussing selected text\n- Providing context and analysis\n\nBe concise, helpful, and focus on the PDF content. If the user asks about specific pages or sections, acknowledge the current page context.",
    rfl⟩

end ChatPDF
